import Mathlib

/-
Verification of the two utility scripts of this repository:
`edit_import_view_ids.py` (an anchored text patcher) and
`create_icon.py` (a fixed-geometry icon renderer).

The text patcher is embedded at the level of file contents: a file's text
is a `List Char`, Python's `text.replace(old, new, 1)` is `replaceFirst`,
the membership test `old in text` is the infix relation on character
lists, and a run of the script maps the file content to a result record
(content written back, exit code, error message, standard output).

The icon renderer is embedded as the list of draw calls the script
issues, in order, over an RGBA canvas; each draw call paints a constant
color on a geometric region of the real plane (PIL's filled ellipse,
polygon, rectangle), and rendering folds the calls over the initial
fully transparent canvas.
-/

namespace EditImportViewIds

/-- Python's `text.replace(old, new, 1)`: replace the leftmost occurrence
of `old` in the text by `new`; if `old` does not occur, the text is
returned unchanged.  (For empty `old`, Python inserts `new` in front,
which the first branch also reproduces.) -/
def replaceFirst (old new : List Char) : List Char → List Char
  | [] => if old.isPrefixOf ([] : List Char) then new else []
  | c :: rest =>
      if old.isPrefixOf (c :: rest) then new ++ List.drop old.length (c :: rest)
      else c :: replaceFirst old new rest

/-- Observable outcome of one run of the patcher script on a file:
the content of the target file after the run, the process exit code,
the fatal error message if any (`SystemExit("anchor not found")` prints
its argument and exits with status 1), and what was printed to stdout. -/
structure PatcherResult where
  fileContent : List Char
  exitCode : Nat
  errorMsg : Option (List Char)
  stdoutText : List Char
deriving DecidableEq, Repr

/-- Lines 3-9 of `edit_import_view_ids.py`, at the level of file content:
read the text, abort with `SystemExit("anchor not found")` (exit status 1,
no write) when the anchor is absent, otherwise replace its first
occurrence and write the result back (exit status 0, nothing printed). -/
def runPatcher (old new text : List Char) : PatcherResult :=
  if old <:+: text then
    { fileContent := replaceFirst old new text
      exitCode := 0
      errorMsg := none
      stdoutText := [] }
  else
    { fileContent := text
      exitCode := 1
      errorMsg := some ("anchor not found".data)
      stdoutText := [] }

/-- The hardcoded anchor `old` of `edit_import_view_ids.py` (line 4). -/
def oldAnchor : List Char :=
  ("      const createdCount = createdTasks.length;\r\n      const totalRows = importPreview.total_rows;\r\n\r\n      if (createdCount === 0) \x7b\r\n").data

/-- The hardcoded replacement `new` of `edit_import_view_ids.py` (line 7). -/
def newReplacement : List Char :=
  ("      const createdCount = createdTasks.length;\r\n      const totalRows = importPreview.total_rows;\r\n\r\n      const newTaskIds = createdTasks.map(task => task.id);\r\n      setLatestImportTaskIds(newTaskIds);\r\n      useDownloadStore.setState(\x7b selectedTasks: newTaskIds \x7d);\r\n\r\n      if (createdCount === 0) \x7b\r\n").data

/-- One full run of `edit_import_view_ids.py` on a given content of
`src/components/Import/ImportView.tsx`. -/
def patcherMain (text : List Char) : PatcherResult :=
  runPatcher oldAnchor newReplacement text

end EditImportViewIds

namespace EditImportViewIds

theorem replaceFirst_of_isPrefixOf (old new t : List Char)
    (h : old.isPrefixOf t = true) :
    replaceFirst old new t = new ++ List.drop old.length t := by
  cases t with
  | nil =>
    have : old = [] := by simpa using h
    simp [replaceFirst, this]
  | cons c rest => simp [replaceFirst, h]

theorem replaceFirst_cons_of_no_match (old new : List Char) (c : Char)
    (rest : List Char) (h : ¬ old <+: (c :: rest)) :
    replaceFirst old new (c :: rest) = c :: replaceFirst old new rest := by
  have hb : old.isPrefixOf (c :: rest) = false := by
    rw [← Bool.not_eq_true, List.isPrefixOf_iff_prefix]
    exact h
  simp [replaceFirst, hb]

/-- `replaceFirst` at the earliest occurrence: when no occurrence of `old`
starts strictly inside the prefix `P`, replacing in `P ++ old ++ S`
rewrites exactly that occurrence and keeps `P` and `S` verbatim. -/
theorem replaceFirst_append (old new P S : List Char)
    (hfirst : ∀ i, i < P.length → ¬ old <+: List.drop i (P ++ old ++ S)) :
    replaceFirst old new (P ++ old ++ S) = P ++ new ++ S := by
  induction P with
  | nil =>
    simp only [List.nil_append]
    have hpre : old.isPrefixOf (old ++ S) = true := by
      rw [ List.isPrefixOf_iff_prefix]; exact List.prefix_append old S
    rw [replaceFirst_of_isPrefixOf old new (old ++ S) hpre, List.drop_left]
  | cons c P ih =>
    have h0 : ¬ old <+: (c :: (P ++ old ++ S)) := by
      have := hfirst 0 (by simp)
      simpa using this
    have hstep := replaceFirst_cons_of_no_match old new c (P ++ old ++ S) h0
    simp only [List.cons_append]
    rw [hstep]
    rw [ih]
    intro i hi
    have := hfirst (i + 1) (by simpa using Nat.succ_lt_succ hi)
    simpa using this

theorem anchor_infix_append (old P S : List Char) :
    old <:+: (P ++ old ++ S) := by
  exact ⟨P, S, by simp⟩

/-- A nonempty pattern that is a prefix of `t.drop i` forces `i < t.length`. -/
theorem occ_lt_length {old t : List Char} {i : Nat} (hm : 0 < old.length)
    (h : old <+: List.drop i t) : i < t.length := by
  have hlen := h.length_le
  rw [List.length_drop] at hlen
  omega

end EditImportViewIds

namespace EditImportViewIds

set_option maxRecDepth 8000

theorem oldAnchor_length_pos : 0 < oldAnchor.length := by decide

theorem oldAnchor_length_lt : oldAnchor.length < newReplacement.length := by decide

/-- No nonempty proper suffix of the anchor is a prefix of the replacement. -/
theorem no_suffix_of_old_prefix_of_new :
    ∀ k, k < oldAnchor.length → 0 < k →
      ¬ (List.drop k oldAnchor) <+: newReplacement := by decide

/-- The anchor does not occur inside the replacement string. -/
theorem old_not_infix_new : ¬ oldAnchor <:+: newReplacement := by decide

/-- No nonempty suffix of the replacement is a prefix of the anchor. -/
theorem no_suffix_of_new_prefix_of_old :
    ∀ j, j < newReplacement.length →
      ¬ (List.drop j newReplacement) <+: oldAnchor := by decide

end EditImportViewIds

namespace EditImportViewIds

theorem drop_append_of_le_len {A B : List Char} {i : Nat} (h : A.length ≤ i) :
    List.drop i (A ++ B) = List.drop (i - A.length) B := by
  rw [List.drop_append_eq_append_drop, List.drop_eq_nil_of_le h, List.nil_append]

theorem drop_append_of_ge_len {A B : List Char} {i : Nat} (h : i ≤ A.length) :
    List.drop i (A ++ B) = List.drop i A ++ B := by
  rw [List.drop_append_eq_append_drop, show i - A.length = 0 by omega,
    List.drop_zero]


/-- Uniqueness transported through the patch: when the anchor occurs in
`P ++ oldAnchor ++ S` only at the marked position, the patched text
`P ++ newReplacement ++ S` contains no occurrence of the anchor at all. -/
theorem no_anchor_in_patched (P S : List Char)
    (huniq : ∀ i, i < (P ++ oldAnchor ++ S).length →
        oldAnchor <+: List.drop i (P ++ oldAnchor ++ S) → i = P.length) :
    ¬ oldAnchor <:+: (P ++ newReplacement ++ S) := by
  intro hinf
  obtain ⟨s, t, hst⟩ := hinf
  have hm : 0 < oldAnchor.length := oldAnchor_length_pos
  have hmn : oldAnchor.length < newReplacement.length := oldAnchor_length_lt
  have hocc : oldAnchor <+: List.drop s.length (P ++ newReplacement ++ S) := by
    rw [← hst, List.append_assoc, List.drop_left]
    exact List.prefix_append oldAnchor t
  rcases Nat.lt_or_ge s.length P.length with hi_lt | hi_ge
  · -- the putative occurrence starts inside P
    have hdrop : List.drop s.length (P ++ newReplacement ++ S)
        = List.drop s.length P ++ (newReplacement ++ S) := by
      rw [List.append_assoc]
      exact drop_append_of_ge_len (Nat.le_of_lt hi_lt)
    rw [hdrop] at hocc
    have htake := List.prefix_iff_eq_take.mp hocc
    rw [List.take_append_eq_append_take] at htake
    have hklen : (List.drop s.length P).length = P.length - s.length :=
      List.length_drop _ _
    rw [hklen] at htake
    rcases le_or_lt oldAnchor.length (P.length - s.length) with hk | hk'
    · -- the occurrence would fit entirely inside P: occurrence in the original
      have hz : oldAnchor.length - (P.length - s.length) = 0 := by omega
      rw [hz, List.take_zero, List.append_nil] at htake
      have hpre : oldAnchor <+: List.drop s.length P := by
        rw [List.prefix_iff_eq_take]
        exact htake
      have horig : oldAnchor <+: List.drop s.length (P ++ oldAnchor ++ S) := by
        rw [List.append_assoc]
        rw [drop_append_of_ge_len (Nat.le_of_lt hi_lt)]
        exact hpre.trans (List.prefix_append _ _)
      have hb := occ_lt_length hm horig
      have := huniq s.length hb horig
      omega
    · -- the occurrence straddles the P/newReplacement boundary
      have hfull : List.take oldAnchor.length (List.drop s.length P)
          = List.drop s.length P :=
        List.take_of_length_le (by omega)
      rw [hfull, List.take_append_eq_append_take] at htake
      have hz : oldAnchor.length - (P.length - s.length) - newReplacement.length
          = 0 := by omega
      rw [hz, List.take_zero, List.append_nil] at htake
      have hdropk := congrArg (List.drop (P.length - s.length)) htake
      rw [drop_append_of_le_len (le_of_eq hklen), hklen, Nat.sub_self,
        List.drop_zero] at hdropk
      have hpre2 : List.drop (P.length - s.length) oldAnchor <+: newReplacement := by
        rw [List.prefix_iff_eq_take, List.length_drop]
        exact hdropk
      exact no_suffix_of_old_prefix_of_new (P.length - s.length) hk' (by omega) hpre2
  · rcases Nat.lt_or_ge s.length (P.length + newReplacement.length) with hi_lt2 | hi_ge2
    · -- the putative occurrence starts inside newReplacement
      have hdrop : List.drop s.length (P ++ newReplacement ++ S)
          = List.drop (s.length - P.length) newReplacement ++ S := by
        rw [List.append_assoc, drop_append_of_le_len hi_ge,
          drop_append_of_ge_len (by omega)]
      rw [hdrop] at hocc
      have htake := List.prefix_iff_eq_take.mp hocc
      rw [List.take_append_eq_append_take] at htake
      have hjlen : (List.drop (s.length - P.length) newReplacement).length
          = newReplacement.length - (s.length - P.length) :=
        List.length_drop _ _
      rw [hjlen] at htake
      rcases le_or_lt oldAnchor.length
          (newReplacement.length - (s.length - P.length)) with hnj | hnj'
      · -- the occurrence would fit entirely inside newReplacement
        have hz : oldAnchor.length
            - (newReplacement.length - (s.length - P.length)) = 0 := by omega
        rw [hz, List.take_zero, List.append_nil] at htake
        have hpre : oldAnchor <+: List.drop (s.length - P.length) newReplacement := by
          rw [List.prefix_iff_eq_take]
          exact htake
        obtain ⟨u, hu⟩ := hpre
        have : oldAnchor <:+: newReplacement := by
          refine ⟨List.take (s.length - P.length) newReplacement, u, ?_⟩
          rw [List.append_assoc, hu, List.take_append_drop]
        exact old_not_infix_new this
      · -- the occurrence extends past the end of newReplacement
        have hfull : List.take oldAnchor.length
            (List.drop (s.length - P.length) newReplacement)
            = List.drop (s.length - P.length) newReplacement :=
          List.take_of_length_le (by omega)
        rw [hfull] at htake
        have hpre3 : List.drop (s.length - P.length) newReplacement <+: oldAnchor :=
          ⟨List.take (oldAnchor.length
              - (newReplacement.length - (s.length - P.length))) S,
            htake.symm⟩
        exact no_suffix_of_new_prefix_of_old (s.length - P.length) (by omega) hpre3
    · -- the putative occurrence starts inside S: occurrence in the original
      have hdrop : List.drop s.length (P ++ newReplacement ++ S)
          = List.drop (s.length - P.length - newReplacement.length) S := by
        rw [List.append_assoc, drop_append_of_le_len hi_ge,
          drop_append_of_le_len (by omega)]
      rw [hdrop] at hocc
      have hlenPO : (P ++ oldAnchor).length = P.length + oldAnchor.length :=
        List.length_append _ _
      have horig : oldAnchor <+: List.drop
          (P.length + oldAnchor.length + (s.length - P.length - newReplacement.length))
          (P ++ oldAnchor ++ S) := by
        rw [drop_append_of_le_len (by rw [hlenPO]; omega), hlenPO]
        have h1 : P.length + oldAnchor.length
            + (s.length - P.length - newReplacement.length)
            - (P.length + oldAnchor.length)
            = s.length - P.length - newReplacement.length := by
          omega
        rw [h1]
        exact hocc
      have hb := occ_lt_length hm horig
      have := huniq _ hb horig
      omega

end EditImportViewIds

namespace EditImportViewIds

set_option maxRecDepth 8000

theorem runPatcher_success (old new P S : List Char)
    (hfirst : ∀ i, i < P.length → ¬ old <+: List.drop i (P ++ old ++ S)) :
    runPatcher old new (P ++ old ++ S)
      = { fileContent := P ++ new ++ S, exitCode := 0, errorMsg := none,
          stdoutText := [] } := by
  unfold runPatcher
  rw [if_pos (anchor_infix_append old P S), replaceFirst_append old new P S hfirst]

theorem hfirst_of_huniq (P S : List Char)
    (huniq : ∀ i, i < (P ++ oldAnchor ++ S).length →
        oldAnchor <+: List.drop i (P ++ oldAnchor ++ S) → i = P.length) :
    ∀ i, i < P.length → ¬ oldAnchor <+: List.drop i (P ++ oldAnchor ++ S) := by
  intro i hi hpre
  have hb := occ_lt_length oldAnchor_length_pos hpre
  have := huniq i hb hpre
  omega

/-- C1: on any text `P ++ old ++ S` whose prefix `P` contains no earlier
occurrence of the anchor `old`, the patcher run replaces exactly that first
occurrence by `new` and reproduces every other character verbatim (so a
second occurrence inside `S` survives unchanged); and the end-to-end run on
content `"A\r\nB\r\nC\r\n"` with anchor `"B\r\n"` and replacement
`"B\r\nX\r\n"` writes `"A\r\nB\r\nX\r\nC\r\n"`. -/
theorem patcher_C1 (old new P S : List Char)
    (hfirst : ∀ i, i < P.length → ¬ old <+: List.drop i (P ++ old ++ S)) :
    runPatcher old new (P ++ old ++ S)
        = { fileContent := P ++ new ++ S, exitCode := 0, errorMsg := none,
            stdoutText := [] }
    ∧ runPatcher ("B\r\n".data) ("B\r\nX\r\n".data) ("A\r\nB\r\nC\r\n".data)
        = { fileContent := ("A\r\nB\r\nX\r\nC\r\n".data), exitCode := 0,
            errorMsg := none, stdoutText := [] } :=
  ⟨runPatcher_success old new P S hfirst, by decide⟩

theorem patcher_C1_witness :
    runPatcher ("b".data) ("X".data) ("a".data ++ "b".data ++ "c".data)
        = { fileContent := "a".data ++ "X".data ++ "c".data, exitCode := 0,
            errorMsg := none, stdoutText := [] }
    ∧ runPatcher ("B\r\n".data) ("B\r\nX\r\n".data) ("A\r\nB\r\nC\r\n".data)
        = { fileContent := ("A\r\nB\r\nX\r\nC\r\n".data), exitCode := 0,
            errorMsg := none, stdoutText := [] } :=
  patcher_C1 ("b".data) ("X".data) ("a".data) ("c".data) (by decide)

/-- C2: when the anchor is absent from the file content, the run aborts with
the error message "anchor not found" and exit status 1, and the file content
is not modified; conversely, when the anchor is present the run succeeds
with exit status 0, prints nothing, and reports no error. -/
theorem patcher_C2 (text : List Char) :
    (¬ oldAnchor <:+: text →
        patcherMain text
          = { fileContent := text, exitCode := 1,
              errorMsg := some ("anchor not found".data), stdoutText := [] })
    ∧ (oldAnchor <:+: text →
        (patcherMain text).exitCode = 0 ∧ (patcherMain text).stdoutText = []
          ∧ (patcherMain text).errorMsg = none) := by
  constructor
  · intro h
    unfold patcherMain runPatcher
    rw [if_neg h]
  · intro h
    unfold patcherMain runPatcher
    rw [if_pos h]
    exact ⟨rfl, rfl, rfl⟩

theorem patcher_C2_witness :
    patcherMain ("A".data)
      = { fileContent := "A".data, exitCode := 1,
          errorMsg := some ("anchor not found".data), stdoutText := [] }
    ∧ (patcherMain oldAnchor).exitCode = 0 :=
  ⟨(patcher_C2 ("A".data)).1 (by decide), ((patcher_C2 oldAnchor).2 (by decide)).1⟩

/-- C3: frame property of a successful run on `P ++ oldAnchor ++ S` (first
occurrence at the marked position): the written content is exactly
`P ++ newReplacement ++ S`, so every byte of `P` and `S` — including any
CRLF line endings they contain — is preserved verbatim by the
read-modify-write cycle. -/
theorem patcher_C3 (P S : List Char)
    (hfirst : ∀ i, i < P.length → ¬ oldAnchor <+: List.drop i (P ++ oldAnchor ++ S)) :
    (patcherMain (P ++ oldAnchor ++ S)).fileContent = P ++ newReplacement ++ S := by
  unfold patcherMain
  rw [runPatcher_success _ _ _ _ hfirst]

theorem patcher_C3_witness :
    (patcherMain ("A\r\n".data ++ oldAnchor ++ "Z\r\n".data)).fileContent
      = "A\r\n".data ++ newReplacement ++ "Z\r\n".data :=
  patcher_C3 ("A\r\n".data) ("Z\r\n".data) (by decide)

/-- C4: on a file containing the hardcoded anchor exactly once, after a
successful run the written content is `P ++ newReplacement ++ S`, it no
longer contains the anchor as a substring, and it does contain the
replacement as a substring. -/
theorem patcher_C4 (P S : List Char)
    (huniq : ∀ i, i < (P ++ oldAnchor ++ S).length →
        oldAnchor <+: List.drop i (P ++ oldAnchor ++ S) → i = P.length) :
    (patcherMain (P ++ oldAnchor ++ S)).fileContent = P ++ newReplacement ++ S
    ∧ ¬ oldAnchor <:+: (P ++ newReplacement ++ S)
    ∧ newReplacement <:+: (P ++ newReplacement ++ S) := by
  refine ⟨?_, no_anchor_in_patched P S huniq, ⟨P, S, rfl⟩⟩
  unfold patcherMain
  rw [runPatcher_success _ _ _ _ (hfirst_of_huniq P S huniq)]

theorem patcher_C4_witness :
    (patcherMain ("A".data ++ oldAnchor ++ "Z".data)).fileContent
        = "A".data ++ newReplacement ++ "Z".data
    ∧ ¬ oldAnchor <:+: ("A".data ++ newReplacement ++ "Z".data)
    ∧ newReplacement <:+: ("A".data ++ newReplacement ++ "Z".data) :=
  patcher_C4 ("A".data) ("Z".data) (by decide)

/-- C5: the patcher is not safely re-runnable against its own output: after
a successful run on a file containing the anchor exactly once, a second run
on the written output fails with "anchor not found" (exit status 1) and
leaves the content unchanged, because the anchor no longer occurs. -/
theorem patcher_C5 (P S : List Char)
    (huniq : ∀ i, i < (P ++ oldAnchor ++ S).length →
        oldAnchor <+: List.drop i (P ++ oldAnchor ++ S) → i = P.length) :
    patcherMain ((patcherMain (P ++ oldAnchor ++ S)).fileContent)
      = { fileContent := (patcherMain (P ++ oldAnchor ++ S)).fileContent,
          exitCode := 1, errorMsg := some ("anchor not found".data),
          stdoutText := [] } := by
  have h1 : (patcherMain (P ++ oldAnchor ++ S)).fileContent
      = P ++ newReplacement ++ S := by
    unfold patcherMain
    rw [runPatcher_success _ _ _ _ (hfirst_of_huniq P S huniq)]
  rw [h1]
  unfold patcherMain runPatcher
  rw [if_neg (no_anchor_in_patched P S huniq)]

theorem patcher_C5_witness :
    patcherMain ((patcherMain ("Q".data ++ oldAnchor ++ "W".data)).fileContent)
      = { fileContent := (patcherMain ("Q".data ++ oldAnchor ++ "W".data)).fileContent,
          exitCode := 1, errorMsg := some ("anchor not found".data),
          stdoutText := [] } :=
  patcher_C5 ("Q".data) ("W".data) (by decide)

end EditImportViewIds

namespace CreateIcon

/-- An RGBA color as PIL receives it: one natural number per channel. -/
structure Color where
  r : Nat
  g : Nat
  b : Nat
  a : Nat
deriving DecidableEq, Repr

/-- All four channels fit in one byte (8 bits per channel). -/
def Color.byteBounded (c : Color) : Prop :=
  c.r < 256 ∧ c.g < 256 ∧ c.b < 256 ∧ c.a < 256

/-- One drawing-primitive invocation of `create_icon.py`: a filled ellipse
given by its bounding box, a filled triangle given by its three vertices
(the script's `draw.polygon` calls pass exactly three points), or a filled
axis-aligned rectangle given by its bounding box. -/
inductive DrawCall where
  | ellipse (x0 y0 x1 y1 : ℝ) (fill : Color)
  | triangle (p1 p2 p3 : ℝ × ℝ) (fill : Color)
  | rectangle (x0 y0 x1 y1 : ℝ) (fill : Color)

def DrawCall.fillColor : DrawCall → Color
  | .ellipse _ _ _ _ f => f
  | .triangle _ _ _ f => f
  | .rectangle _ _ _ _ f => f

/-- The filled ellipse inscribed in the bounding box `[x0, y0, x1, y1]`
contains the point `(px, py)` (stated multiplicatively so degenerate boxes
need no division). -/
def ellipseCoversPt (x0 y0 x1 y1 px py : ℝ) : Prop :=
  (px - (x0 + x1) / 2) ^ 2 * ((y1 - y0) / 2) ^ 2
    + (py - (y0 + y1) / 2) ^ 2 * ((x1 - x0) / 2) ^ 2
    ≤ ((x1 - x0) / 2) ^ 2 * ((y1 - y0) / 2) ^ 2

/-- The filled triangle with the given vertices contains `(px, py)`:
barycentric (convex-combination) description of a filled 3-gon. -/
def triangleCoversPt (p1 p2 p3 : ℝ × ℝ) (px py : ℝ) : Prop :=
  ∃ a b c : ℝ, 0 ≤ a ∧ 0 ≤ b ∧ 0 ≤ c ∧ a + b + c = 1 ∧
    px = a * p1.1 + b * p2.1 + c * p3.1 ∧ py = a * p1.2 + b * p2.2 + c * p3.2

/-- The filled axis-aligned rectangle `[x0, y0, x1, y1]` contains `(px, py)`. -/
def rectangleCoversPt (x0 y0 x1 y1 px py : ℝ) : Prop :=
  x0 ≤ px ∧ px ≤ x1 ∧ y0 ≤ py ∧ py ≤ y1

/-- The region painted by a draw call contains the real point `(px, py)`. -/
def coversPt : DrawCall → ℝ → ℝ → Prop
  | .ellipse x0 y0 x1 y1 _, px, py => ellipseCoversPt x0 y0 x1 y1 px py
  | .triangle p1 p2 p3 _, px, py => triangleCoversPt p1 p2 p3 px py
  | .rectangle x0 y0 x1 y1 _, px, py => rectangleCoversPt x0 y0 x1 y1 px py

/-- The draw call is an ellipse centered at the point `(qx, qy)`; polygon
and rectangle calls are positioned by vertices/corners, not by a center. -/
def centeredAt : DrawCall → ℝ → ℝ → Prop
  | .ellipse x0 y0 x1 y1 _, qx, qy => (x0 + x1) / 2 = qx ∧ (y0 + y1) / 2 = qy
  | .triangle _ _ _ _, _, _ => False
  | .rectangle _ _ _ _ _, _, _ => False

/-- An in-memory PIL image: dimensions, mode string, and pixel contents. -/
structure IconImage where
  width : Nat
  height : Nat
  mode : List Char
  pixel : Nat → Nat → Color

/-- A draw call paints the pixel `(x, y)` when its region contains it. -/
def coversPx (d : DrawCall) (x y : Nat) : Prop := coversPt d (x : ℝ) (y : ℝ)

/-- `Image.new(mode, (w, h), color)`: a constant-color image. -/
def imageNew (mode : List Char) (w h : Nat) (c : Color) : IconImage :=
  { width := w, height := h, mode := mode, pixel := fun _ _ => c }

open Classical in
/-- Execute one draw call: pixels inside the painted region take the fill
color, all other pixels (and the image dimensions/mode) are unchanged. -/
noncomputable def applyCall (img : IconImage) (d : DrawCall) : IconImage :=
  { img with
    pixel := fun x y => if coversPx d x y then d.fillColor else img.pixel x y }

/-- Execute a list of draw calls in order (later calls paint over earlier). -/
noncomputable def render (img : IconImage) (cs : List DrawCall) : IconImage :=
  cs.foldl applyCall img

def size : Nat := 1024
def primary_color : Color := ⟨33, 150, 243, 255⟩
def secondary_color : Color := ⟨76, 175, 80, 255⟩
def accent_color : Color := ⟨255, 87, 34, 255⟩
def margin : Nat := 80
def circle_size : Nat := size - 2 * margin
def triangle_size : Nat := 200
def center_x : Nat := size / 2
def center_y : Nat := size / 2
def arrow_y : Nat := center_y + 150
def arrow_width : Nat := 120
def arrow_height : Nat := 140
def shaft_width : Nat := 40
def shaft_x : Nat := center_x - shaft_width / 2
def outer_radius : Nat := size / 2 - 20
def inner_radius : Nat := outer_radius - 30

/-- `math.radians(deg)`. -/
noncomputable def radians (deg : ℝ) : ℝ := deg * Real.pi / 180

/-- x-coordinate `x2 = center_x + outer_radius * cos(radians(i * 45))` of
the i-th decorative dot center. -/
noncomputable def dotCenterX (i : Nat) : ℝ :=
  (center_x : ℝ) + (outer_radius : ℝ) * Real.cos (radians ((i * 45 : Nat) : ℝ))

/-- y-coordinate `y2` of the i-th decorative dot center. -/
noncomputable def dotCenterY (i : Nat) : ℝ :=
  (center_y : ℝ) + (outer_radius : ℝ) * Real.sin (radians ((i * 45 : Nat) : ℝ))

/-- x-coordinate `x1 = center_x + inner_radius * cos(radians(i * 45))`:
computed by the loop body of `create_icon.py` but never drawn at. -/
noncomputable def innerPointX (i : Nat) : ℝ :=
  (center_x : ℝ) + (inner_radius : ℝ) * Real.cos (radians ((i * 45 : Nat) : ℝ))

/-- y-coordinate `y1` of the i-th inner point (computed, never drawn at). -/
noncomputable def innerPointY (i : Nat) : ℝ :=
  (center_y : ℝ) + (inner_radius : ℝ) * Real.sin (radians ((i * 45 : Nat) : ℝ))

/-- `draw.ellipse([margin, margin, margin + circle_size, margin + circle_size],
fill=primary_color)`. -/
noncomputable def mainCircleCall : DrawCall :=
  .ellipse ((margin : Nat) : ℝ) ((margin : Nat) : ℝ)
    ((margin + circle_size : Nat) : ℝ) ((margin + circle_size : Nat) : ℝ)
    primary_color

/-- `draw.polygon(triangle_points, fill=(255, 255, 255, 255))`. -/
noncomputable def playTriangleCall : DrawCall :=
  .triangle
    (((center_x - triangle_size / 3 : Nat) : ℝ),
      ((center_y - triangle_size / 2 : Nat) : ℝ))
    (((center_x - triangle_size / 3 : Nat) : ℝ),
      ((center_y + triangle_size / 2 : Nat) : ℝ))
    (((center_x + triangle_size / 2 : Nat) : ℝ), ((center_y : Nat) : ℝ))
    ⟨255, 255, 255, 255⟩

/-- `draw.rectangle([shaft_x, arrow_y - 60, shaft_x + shaft_width,
arrow_y + 20], fill=secondary_color)`. -/
noncomputable def shaftCall : DrawCall :=
  .rectangle ((shaft_x : Nat) : ℝ) ((arrow_y - 60 : Nat) : ℝ)
    ((shaft_x + shaft_width : Nat) : ℝ) ((arrow_y + 20 : Nat) : ℝ)
    secondary_color

/-- `draw.polygon(arrow_points, fill=secondary_color)`. -/
noncomputable def arrowHeadCall : DrawCall :=
  .triangle
    (((center_x - arrow_width / 2 : Nat) : ℝ), ((arrow_y : Nat) : ℝ))
    (((center_x + arrow_width / 2 : Nat) : ℝ), ((arrow_y : Nat) : ℝ))
    (((center_x : Nat) : ℝ), ((arrow_y + arrow_height / 3 : Nat) : ℝ))
    secondary_color

/-- Iteration `i` of the decorative-ring loop: the single
`draw.ellipse([x2-8, y2-8, x2+8, y2+8], fill=accent_color)` it issues.
The loop also computes the inner point `(x1, y1)` (see `innerPointX`,
`innerPointY`) but draws nothing at it. -/
noncomputable def ringDotCall (i : Nat) : DrawCall :=
  .ellipse (dotCenterX i - 8) (dotCenterY i - 8) (dotCenterX i + 8)
    (dotCenterY i + 8) accent_color

/-- The draw calls of the `for i in range(8)` decorative-ring loop. -/
noncomputable def ringStepCalls : List DrawCall :=
  (List.range 8).map ringDotCall

/-- All draw calls of `create_video_downloader_icon`, in program order. -/
noncomputable def iconDrawCalls : List DrawCall :=
  [mainCircleCall, playTriangleCall, shaftCall, arrowHeadCall] ++ ringStepCalls

/-- `Image.new('RGBA', (size, size), (0, 0, 0, 0))`. -/
def initialImage : IconImage := imageNew ("RGBA".data) size size ⟨0, 0, 0, 0⟩

/-- The image returned by `create_video_downloader_icon()`. -/
noncomputable def create_video_downloader_icon : IconImage :=
  render initialImage iconDrawCalls

/-- A file written by `icon.save(path, "PNG")`: serialization format plus
the serialized image. -/
structure SavedImage where
  format : List Char
  image : IconImage

/-- The files of the current working directory, by name. -/
abbrev FileSystem := List Char → Option SavedImage

/-- `main()` of `create_icon.py`, as a transformation of the working
directory: it writes the rendered 1024x1024 icon in PNG format to the
fixed path `app-icon.png`, overwriting whatever was there, and touches
no other path. -/
noncomputable def iconMain (fs : FileSystem) : FileSystem :=
  fun p =>
    if p = ("app-icon.png".data) then
      some { format := "PNG".data, image := create_video_downloader_icon }
    else fs p

end CreateIcon

namespace CreateIcon

theorem render_width (cs : List DrawCall) :
    ∀ img : IconImage, (render img cs).width = img.width := by
  induction cs with
  | nil => intro img; rfl
  | cons d cs ih =>
    intro img
    have hstep : render img (d :: cs) = render (applyCall img d) cs := rfl
    rw [hstep, ih (applyCall img d)]
    rfl

theorem render_height (cs : List DrawCall) :
    ∀ img : IconImage, (render img cs).height = img.height := by
  induction cs with
  | nil => intro img; rfl
  | cons d cs ih =>
    intro img
    have hstep : render img (d :: cs) = render (applyCall img d) cs := rfl
    rw [hstep, ih (applyCall img d)]
    rfl

theorem render_mode (cs : List DrawCall) :
    ∀ img : IconImage, (render img cs).mode = img.mode := by
  induction cs with
  | nil => intro img; rfl
  | cons d cs ih =>
    intro img
    have hstep : render img (d :: cs) = render (applyCall img d) cs := rfl
    rw [hstep, ih (applyCall img d)]
    rfl

/-- A pixel covered by no draw call keeps its value through rendering. -/
theorem render_pixel_of_not_covered (cs : List DrawCall) :
    ∀ img : IconImage, ∀ x y : Nat, (∀ d ∈ cs, ¬ coversPx d x y) →
      (render img cs).pixel x y = img.pixel x y := by
  induction cs with
  | nil => intro img x y _; rfl
  | cons d cs ih =>
    intro img x y h
    have h1 : ¬ coversPx d x y := h d (List.mem_cons_self d cs)
    have h2 : ∀ e ∈ cs, ¬ coversPx e x y :=
      fun e he => h e (List.mem_cons_of_mem d he)
    have hstep : render img (d :: cs) = render (applyCall img d) cs := rfl
    rw [hstep, ih (applyCall img d) x y h2]
    simp [applyCall, h1]

/-- Every rendered pixel is either the original pixel or the fill color of
one of the draw calls. -/
theorem render_pixel_cases (cs : List DrawCall) :
    ∀ img : IconImage, ∀ x y : Nat,
      (render img cs).pixel x y = img.pixel x y
        ∨ ∃ d ∈ cs, (render img cs).pixel x y = d.fillColor := by
  induction cs with
  | nil => intro img x y; exact Or.inl rfl
  | cons d cs ih =>
    intro img x y
    have hstep : render img (d :: cs) = render (applyCall img d) cs := rfl
    rcases ih (applyCall img d) x y with h | ⟨e, he, hEq⟩
    · by_cases hc : coversPx d x y
      · refine Or.inr ⟨d, List.mem_cons_self d cs, ?_⟩
        rw [hstep, h]
        simp [applyCall, hc]
      · refine Or.inl ?_
        rw [hstep, h]
        simp [applyCall, hc]
    · exact Or.inr ⟨e, List.mem_cons_of_mem d he, hstep ▸ hEq⟩

theorem mainCircleCall_eq :
    mainCircleCall = DrawCall.ellipse 80 80 944 944 primary_color := by
  simp only [mainCircleCall]
  norm_num [margin, circle_size, size]

theorem playTriangleCall_eq :
    playTriangleCall
      = DrawCall.triangle (446, 412) (446, 612) (612, 512) ⟨255, 255, 255, 255⟩ := by
  simp only [playTriangleCall]
  norm_num [center_x, center_y, triangle_size, size]

theorem shaftCall_eq :
    shaftCall = DrawCall.rectangle 492 602 532 682 secondary_color := by
  simp only [shaftCall]
  norm_num [shaft_x, shaft_width, arrow_y, center_x, center_y, size]

theorem arrowHeadCall_eq :
    arrowHeadCall
      = DrawCall.triangle (452, 662) (572, 662) (512, 708) secondary_color := by
  simp only [arrowHeadCall]
  norm_num [center_x, center_y, arrow_y, arrow_width, arrow_height, size]

theorem dotCenterX_eq (i : Nat) :
    dotCenterX i = 512 + 492 * Real.cos (radians ((i * 45 : Nat) : ℝ)) := by
  simp only [dotCenterX]
  norm_num [center_x, outer_radius, size]

theorem dotCenterY_eq (i : Nat) :
    dotCenterY i = 512 + 492 * Real.sin (radians ((i * 45 : Nat) : ℝ)) := by
  simp only [dotCenterY]
  norm_num [center_y, outer_radius, size]

theorem innerPointX_eq (i : Nat) :
    innerPointX i = 512 + 462 * Real.cos (radians ((i * 45 : Nat) : ℝ)) := by
  simp only [innerPointX]
  norm_num [center_x, inner_radius, outer_radius, size]

theorem innerPointY_eq (i : Nat) :
    innerPointY i = 512 + 462 * Real.sin (radians ((i * 45 : Nat) : ℝ)) := by
  simp only [innerPointY]
  norm_num [center_y, inner_radius, outer_radius, size]

end CreateIcon

namespace CreateIcon

/-- A point covered by decorative dot `i` lies within distance 8 of the dot
center. -/
theorem ringDot_dist_sq_le (i : Nat) (px py : ℝ)
    (h : coversPt (ringDotCall i) px py) :
    (px - dotCenterX i) ^ 2 + (py - dotCenterY i) ^ 2 ≤ 64 := by
  simp only [ringDotCall, coversPt, ellipseCoversPt] at h
  nlinarith [h]

/-- Every decorative dot center lies at distance exactly 492 from the
canvas center (512, 512). -/
theorem dot_center_dist_sq (i : Nat) :
    (dotCenterX i - 512) ^ 2 + (dotCenterY i - 512) ^ 2 = 492 ^ 2 := by
  have hs := Real.sin_sq_add_cos_sq (radians ((i * 45 : Nat) : ℝ))
  rw [dotCenterX_eq, dotCenterY_eq]
  linear_combination (242064 : ℝ) * hs

/-- Points of decorative dot `i` lie within distance 500 of the canvas
center. -/
theorem ringDot_far_le (i : Nat) (px py : ℝ)
    (h : coversPt (ringDotCall i) px py) :
    (px - 512) ^ 2 + (py - 512) ^ 2 ≤ 500 ^ 2 := by
  have h64 := ringDot_dist_sq_le i px py h
  have hc := dot_center_dist_sq i
  nlinarith [h64, hc,
    sq_nonneg ((px - dotCenterX i) * (dotCenterY i - 512)
      - (py - dotCenterY i) * (dotCenterX i - 512)),
    sq_nonneg ((px - dotCenterX i) * (dotCenterX i - 512)
      + (py - dotCenterY i) * (dotCenterY i - 512) - 3936)]

/-- Points of decorative dot `i` lie at distance at least 484 from the
canvas center. -/
theorem ringDot_far_ge (i : Nat) (px py : ℝ)
    (h : coversPt (ringDotCall i) px py) :
    (484 : ℝ) ^ 2 ≤ (px - 512) ^ 2 + (py - 512) ^ 2 := by
  have h64 := ringDot_dist_sq_le i px py h
  have hc := dot_center_dist_sq i
  nlinarith [h64, hc,
    sq_nonneg ((px - dotCenterX i) * (dotCenterY i - 512)
      - (py - dotCenterY i) * (dotCenterX i - 512)),
    sq_nonneg ((px - dotCenterX i) * (dotCenterX i - 512)
      + (py - dotCenterY i) * (dotCenterY i - 512) + 3936)]

theorem dotCenterX_bounds (i : Nat) :
    (20 : ℝ) ≤ dotCenterX i ∧ dotCenterX i ≤ 1004 := by
  have h1 := Real.cos_le_one (radians ((i * 45 : Nat) : ℝ))
  have h2 := Real.neg_one_le_cos (radians ((i * 45 : Nat) : ℝ))
  rw [dotCenterX_eq]
  constructor <;> nlinarith [h1, h2]

theorem dotCenterY_bounds (i : Nat) :
    (20 : ℝ) ≤ dotCenterY i ∧ dotCenterY i ≤ 1004 := by
  have h1 := Real.sin_le_one (radians ((i * 45 : Nat) : ℝ))
  have h2 := Real.neg_one_le_sin (radians ((i * 45 : Nat) : ℝ))
  rw [dotCenterY_eq]
  constructor <;> nlinarith [h1, h2]

/-- Points of decorative dot `i` stay strictly inside the canvas bounds. -/
theorem ringDot_in_canvas (i : Nat) (px py : ℝ)
    (h : coversPt (ringDotCall i) px py) :
    0 ≤ px ∧ px < 1024 ∧ 0 ≤ py ∧ py < 1024 := by
  have h64 := ringDot_dist_sq_le i px py h
  obtain ⟨hx1, hx2⟩ := dotCenterX_bounds i
  obtain ⟨hy1, hy2⟩ := dotCenterY_bounds i
  refine ⟨?_, ?_, ?_, ?_⟩
  · nlinarith [sq_nonneg (py - dotCenterY i), sq_nonneg (px - dotCenterX i + 8)]
  · nlinarith [sq_nonneg (py - dotCenterY i), sq_nonneg (px - dotCenterX i - 8)]
  · nlinarith [sq_nonneg (px - dotCenterX i), sq_nonneg (py - dotCenterY i + 8)]
  · nlinarith [sq_nonneg (px - dotCenterX i), sq_nonneg (py - dotCenterY i - 8)]

/-- Barycentric upper bound: a covered point's x-coordinate is at most the
largest vertex x-coordinate. -/
theorem triangle_px_le (p1 p2 p3 : ℝ × ℝ) (px py M : ℝ)
    (h1 : p1.1 ≤ M) (h2 : p2.1 ≤ M) (h3 : p3.1 ≤ M)
    (hc : triangleCoversPt p1 p2 p3 px py) : px ≤ M := by
  obtain ⟨a, b, c, ha, hb, hc', hsum, hx, _⟩ := hc
  have hM : (a + b + c) * M = M := by rw [hsum, one_mul]
  nlinarith [mul_le_mul_of_nonneg_left h1 ha, mul_le_mul_of_nonneg_left h2 hb,
    mul_le_mul_of_nonneg_left h3 hc', hM]

/-- Barycentric lower bound for the x-coordinate. -/
theorem triangle_px_ge (p1 p2 p3 : ℝ × ℝ) (px py M : ℝ)
    (h1 : M ≤ p1.1) (h2 : M ≤ p2.1) (h3 : M ≤ p3.1)
    (hc : triangleCoversPt p1 p2 p3 px py) : M ≤ px := by
  obtain ⟨a, b, c, ha, hb, hc', hsum, hx, _⟩ := hc
  have hM : (a + b + c) * M = M := by rw [hsum, one_mul]
  nlinarith [mul_le_mul_of_nonneg_left h1 ha, mul_le_mul_of_nonneg_left h2 hb,
    mul_le_mul_of_nonneg_left h3 hc', hM]

end CreateIcon

namespace CreateIcon

theorem mem_iconDrawCalls {d : DrawCall} (hd : d ∈ iconDrawCalls) :
    d = mainCircleCall ∨ d = playTriangleCall ∨ d = shaftCall ∨ d = arrowHeadCall
      ∨ ∃ j, j < 8 ∧ d = ringDotCall j := by
  simp only [iconDrawCalls, ringStepCalls, List.mem_append, List.mem_cons,
    List.not_mem_nil, or_false, List.mem_map, List.mem_range] at hd
  rcases hd with (h | h | h | h) | ⟨j, hj, h⟩
  · exact Or.inl h
  · exact Or.inr (Or.inl h)
  · exact Or.inr (Or.inr (Or.inl h))
  · exact Or.inr (Or.inr (Or.inr (Or.inl h)))
  · exact Or.inr (Or.inr (Or.inr (Or.inr ⟨j, hj, h.symm⟩)))

/-- No draw call of the icon covers any of the four corner pixels. -/
theorem corner_not_covered (d : DrawCall) (hd : d ∈ iconDrawCalls)
    (x y : Nat) (hx : x = 0 ∨ x = 1023) (hy : y = 0 ∨ y = 1023) :
    ¬ coversPx d x y := by
  have hxr : (x : ℝ) = 0 ∨ (x : ℝ) = 1023 := by
    rcases hx with rfl | rfl
    · exact Or.inl (by norm_num)
    · exact Or.inr (by norm_num)
  have hyr : (y : ℝ) = 0 ∨ (y : ℝ) = 1023 := by
    rcases hy with rfl | rfl
    · exact Or.inl (by norm_num)
    · exact Or.inr (by norm_num)
  intro hcov
  unfold coversPx at hcov
  rcases mem_iconDrawCalls hd with rfl | rfl | rfl | rfl | ⟨j, _, rfl⟩
  · rw [mainCircleCall_eq] at hcov
    simp only [coversPt, ellipseCoversPt] at hcov
    rcases hxr with hx' | hx' <;> rcases hyr with hy' | hy' <;>
      rw [hx', hy'] at hcov <;> norm_num at hcov
  · rw [playTriangleCall_eq] at hcov
    simp only [coversPt] at hcov
    have hle := triangle_px_le _ _ _ _ _ 612
      (by norm_num) (by norm_num) (by norm_num) hcov
    have hge := triangle_px_ge _ _ _ _ _ 446
      (by norm_num) (by norm_num) (by norm_num) hcov
    rcases hxr with hx' | hx' <;> rw [hx'] at hle hge <;> norm_num at hle hge
  · rw [shaftCall_eq] at hcov
    simp only [coversPt, rectangleCoversPt] at hcov
    obtain ⟨h1, h2, _, _⟩ := hcov
    rcases hxr with hx' | hx' <;> rw [hx'] at h1 h2 <;> norm_num at h1 h2
  · rw [arrowHeadCall_eq] at hcov
    simp only [coversPt] at hcov
    have hle := triangle_px_le _ _ _ _ _ 572
      (by norm_num) (by norm_num) (by norm_num) hcov
    have hge := triangle_px_ge _ _ _ _ _ 452
      (by norm_num) (by norm_num) (by norm_num) hcov
    rcases hxr with hx' | hx' <;> rw [hx'] at hle hge <;> norm_num at hle hge
  · have hle := ringDot_far_le j _ _ hcov
    rcases hxr with hx' | hx' <;> rcases hyr with hy' | hy' <;>
      rw [hx', hy'] at hle <;> norm_num at hle

/-- The center of no decorative dot coincides with any inner point. -/
theorem inner_point_ne_dot_center (i j : Nat) :
    ¬ centeredAt (ringDotCall j) (innerPointX i) (innerPointY i) := by
  intro hc
  simp only [ringDotCall, centeredAt] at hc
  obtain ⟨hx, hy⟩ := hc
  have hX : dotCenterX j = innerPointX i := by linarith
  have hY : dotCenterY j = innerPointY i := by linarith
  rw [dotCenterX_eq, innerPointX_eq] at hX
  rw [dotCenterY_eq, innerPointY_eq] at hY
  have e1 : 492 * Real.cos (radians ((j * 45 : Nat) : ℝ))
      = 462 * Real.cos (radians ((i * 45 : Nat) : ℝ)) := by linarith
  have e2 : 492 * Real.sin (radians ((j * 45 : Nat) : ℝ))
      = 462 * Real.sin (radians ((i * 45 : Nat) : ℝ)) := by linarith
  have e1sq := congrArg (fun z : ℝ => z ^ 2) e1
  have e2sq := congrArg (fun z : ℝ => z ^ 2) e2
  simp only at e1sq e2sq
  have hi := Real.sin_sq_add_cos_sq (radians ((i * 45 : Nat) : ℝ))
  have hj := Real.sin_sq_add_cos_sq (radians ((j * 45 : Nat) : ℝ))
  nlinarith [e1sq, e2sq, hi, hj]

/-- The center of the main circle is not any inner point. -/
theorem inner_point_ne_main_center (i : Nat) :
    ¬ centeredAt mainCircleCall (innerPointX i) (innerPointY i) := by
  intro hc
  rw [mainCircleCall_eq] at hc
  obtain ⟨hx, hy⟩ := hc
  rw [innerPointX_eq] at hx
  rw [innerPointY_eq] at hy
  have hc0 : Real.cos (radians ((i * 45 : Nat) : ℝ)) = 0 := by linarith
  have hs0 : Real.sin (radians ((i * 45 : Nat) : ℝ)) = 0 := by linarith
  have hi := Real.sin_sq_add_cos_sq (radians ((i * 45 : Nat) : ℝ))
  rw [hc0, hs0] at hi
  norm_num at hi

theorem iconDrawCalls_fill_bounded :
    ∀ d ∈ iconDrawCalls, d.fillColor.byteBounded := by
  intro d hd
  rcases mem_iconDrawCalls hd with rfl | rfl | rfl | rfl | ⟨j, _, rfl⟩ <;>
    norm_num [DrawCall.fillColor, mainCircleCall, playTriangleCall, shaftCall,
      arrowHeadCall, ringDotCall, primary_color, secondary_color, accent_color,
      Color.byteBounded]

theorem dotCenterX_zero : dotCenterX 0 = 1004 := by
  rw [dotCenterX_eq]
  norm_num [radians, Real.cos_zero]

theorem dotCenterY_zero : dotCenterY 0 = 512 := by
  rw [dotCenterY_eq]
  norm_num [radians, Real.sin_zero]

end CreateIcon

namespace CreateIcon

/-- C6: a run of the icon renderer takes no input, produces a single
1024x1024 image in RGBA mode with byte-sized channels, starts from a fully
transparent canvas, and writes it in PNG format to the fixed path
`app-icon.png` in the current working directory, overwriting whatever was
stored there and touching no other path. -/
theorem icon_C6 (fs : FileSystem) :
    iconMain fs ("app-icon.png".data)
        = some { format := "PNG".data, image := create_video_downloader_icon }
    ∧ create_video_downloader_icon.width = 1024
    ∧ create_video_downloader_icon.height = 1024
    ∧ create_video_downloader_icon.mode = "RGBA".data
    ∧ (∀ x y : Nat, (create_video_downloader_icon.pixel x y).byteBounded)
    ∧ (∀ x y : Nat, initialImage.pixel x y = ⟨0, 0, 0, 0⟩)
    ∧ (∀ p, p ≠ ("app-icon.png".data) → iconMain fs p = fs p) := by
  refine ⟨?_, ?_, ?_, ?_, ?_, ?_, ?_⟩
  · simp [iconMain]
  · exact (render_width iconDrawCalls initialImage).trans rfl
  · exact (render_height iconDrawCalls initialImage).trans rfl
  · exact (render_mode iconDrawCalls initialImage).trans rfl
  · intro x y
    rcases render_pixel_cases iconDrawCalls initialImage x y with h | ⟨d, hd, h⟩
    · unfold create_video_downloader_icon
      rw [h]
      norm_num [initialImage, imageNew, Color.byteBounded]
    · unfold create_video_downloader_icon
      rw [h]
      exact iconDrawCalls_fill_bounded d hd
  · intro x y
    rfl
  · intro p hp
    simp [iconMain, hp]

theorem icon_C6_witness :
    iconMain (fun _ => none) ("app-icon.png".data)
        = some { format := "PNG".data, image := create_video_downloader_icon }
    ∧ iconMain (fun _ => none) ("x".data) = none := by
  obtain ⟨h1, _, _, _, _, _, h7⟩ := icon_C6 (fun _ => none)
  exact ⟨h1, h7 ("x".data) (by decide)⟩

/-- C7: in the rendered icon, the four corner pixels (0,0), (1023,0),
(0,1023) and (1023,1023) are fully transparent — they keep the initial
(0,0,0,0) value because no draw call (main circle, play triangle, arrow
shaft, arrow head, or any of the eight decorative dots) covers a corner. -/
theorem icon_C7 :
    create_video_downloader_icon.pixel 0 0 = ⟨0, 0, 0, 0⟩
    ∧ create_video_downloader_icon.pixel 1023 0 = ⟨0, 0, 0, 0⟩
    ∧ create_video_downloader_icon.pixel 0 1023 = ⟨0, 0, 0, 0⟩
    ∧ create_video_downloader_icon.pixel 1023 1023 = ⟨0, 0, 0, 0⟩
    ∧ List.Forall (fun d => ¬ coversPx d 0 0 ∧ ¬ coversPx d 1023 0
        ∧ ¬ coversPx d 0 1023 ∧ ¬ coversPx d 1023 1023) iconDrawCalls := by
  have hpix : ∀ x y : Nat, (x = 0 ∨ x = 1023) → (y = 0 ∨ y = 1023) →
      create_video_downloader_icon.pixel x y = ⟨0, 0, 0, 0⟩ := by
    intro x y hx hy
    unfold create_video_downloader_icon
    rw [render_pixel_of_not_covered iconDrawCalls initialImage x y
      (fun d hd => corner_not_covered d hd x y hx hy)]
    rfl
  refine ⟨hpix 0 0 (Or.inl rfl) (Or.inl rfl),
    hpix 1023 0 (Or.inr rfl) (Or.inl rfl),
    hpix 0 1023 (Or.inl rfl) (Or.inr rfl),
    hpix 1023 1023 (Or.inr rfl) (Or.inr rfl),
    List.forall_iff_forall_mem.mpr ?_⟩
  intro d hd
  exact ⟨corner_not_covered d hd 0 0 (Or.inl rfl) (Or.inl rfl),
    corner_not_covered d hd 1023 0 (Or.inr rfl) (Or.inl rfl),
    corner_not_covered d hd 0 1023 (Or.inl rfl) (Or.inr rfl),
    corner_not_covered d hd 1023 1023 (Or.inr rfl) (Or.inr rfl)⟩

/-- C8: the decorative-ring loop runs 8 iterations and iteration `i` draws
exactly one filled circle of radius 8, the ellipse inscribed in
`[x2-8, y2-8, x2+8, y2+8]` for the outer-radius point
`(512 + 492 cos(radians(45 i)), 512 + 492 sin(radians(45 i)))`, filled with
the accent color; the inner-radius point is computed by the loop but no
draw call of the whole program is a circle centered at it. -/
theorem icon_C8 :
    ringStepCalls.length = 8
    ∧ ringStepCalls = (List.range 8).map (fun i =>
        DrawCall.ellipse (dotCenterX i - 8) (dotCenterY i - 8)
          (dotCenterX i + 8) (dotCenterY i + 8) accent_color)
    ∧ ∀ i, i < 8 → ∀ d ∈ iconDrawCalls,
        ¬ centeredAt d (innerPointX i) (innerPointY i) := by
  refine ⟨rfl, rfl, ?_⟩
  intro i _ d hd
  rcases mem_iconDrawCalls hd with rfl | rfl | rfl | rfl | ⟨j, _, rfl⟩
  · exact inner_point_ne_main_center i
  · rw [playTriangleCall_eq]
    simp [centeredAt]
  · rw [shaftCall_eq]
    simp [centeredAt]
  · rw [arrowHeadCall_eq]
    simp [centeredAt]
  · exact inner_point_ne_dot_center i j

theorem icon_C8_witness :
    ringStepCalls.length = 8
    ∧ ¬ centeredAt mainCircleCall (innerPointX 0) (innerPointY 0) := by
  obtain ⟨h1, _, h3⟩ := icon_C8
  exact ⟨h1, h3 0 (by norm_num) mainCircleCall (by simp [iconDrawCalls])⟩

/-- C9: the renderer is deterministic and ignores its environment: the
file written to `app-icon.png` is the same fixed image — pixel for pixel —
whatever the prior state of the working directory, so re-running the
program reproduces the same output file content. -/
theorem icon_C9 (fs1 fs2 : FileSystem) :
    iconMain fs1 ("app-icon.png".data) = iconMain fs2 ("app-icon.png".data)
    ∧ iconMain fs1 ("app-icon.png".data)
        = some { format := "PNG".data, image := create_video_downloader_icon } := by
  constructor <;> simp [iconMain]

/-- C10: every point of every decorative dot lies strictly inside the
canvas (the dot centers are at distance exactly 492 from the canvas center,
and 492 + 8 < 512 keeps dots away from every edge) and strictly outside the
main circle (492 - 8 > 432), so the dots sit wholly on the margin region
that the main circle leaves transparent. -/
theorem icon_C10 (i : Nat) (px py : ℝ) (hi : i < 8)
    (hcov : coversPt (ringDotCall i) px py) :
    (0 ≤ px ∧ px < 1024 ∧ 0 ≤ py ∧ py < 1024)
    ∧ ¬ coversPt mainCircleCall px py
    ∧ (dotCenterX i - 512) ^ 2 + (dotCenterY i - 512) ^ 2 = 492 ^ 2 := by
  have _ := hi
  refine ⟨ringDot_in_canvas i px py hcov, ?_, dot_center_dist_sq i⟩
  intro hmain
  have hge := ringDot_far_ge i px py hcov
  rw [mainCircleCall_eq] at hmain
  simp only [coversPt, ellipseCoversPt] at hmain
  nlinarith [hge, hmain]

theorem icon_C10_witness :
    ((0 : ℝ) ≤ 1004 ∧ (1004 : ℝ) < 1024 ∧ (0 : ℝ) ≤ 512 ∧ (512 : ℝ) < 1024)
    ∧ ¬ coversPt mainCircleCall 1004 512
    ∧ (dotCenterX 0 - 512) ^ 2 + (dotCenterY 0 - 512) ^ 2 = 492 ^ 2 :=
  icon_C10 0 1004 512 (by norm_num) (by
    simp only [ringDotCall, coversPt, ellipseCoversPt, dotCenterX_zero,
      dotCenterY_zero]
    norm_num)

end CreateIcon
